import Mathlib

/-!
Verification development for the `dmitigr::concur` library
(`simple_thread_pool.hpp` and `affinity.hpp`).

Two embeddings are used:

* a functional embedding of the individual member functions of
  `Simple_thread_pool` (constructor, `submit`, `clear`, `queue_size`,
  `size`, `log_error`, the task-execution try/catch of `wait_and_run`)
  and of `set_affinity`;

* a small-step interleaving transition system for the concurrency
  behaviour of the pool: worker threads executing `wait_and_run`, the
  destructor thread, and client calls to `submit`/`clear`.  Each atomic
  step of the transition system corresponds to a region of source code
  executed while holding (or not needing) the relevant mutex, at the
  granularity the C++ memory model guarantees for mutex-protected data.
-/

namespace Dmitigr.Concur

/-- A thrown C++ exception: a `std::exception` carrying its `what()`
message, or any other thrown object (catchable only by `catch (...)`). -/
inductive Exn where
  | std (what : String)
  | unknown
deriving DecidableEq, Repr

/-! ### Functional embedding of `Simple_thread_pool` member functions

A task (`std::function<void()>`) is modelled by its execution outcome,
of type `Except Exn Unit`; an *empty* `std::function` is the `none` of
an `Option`.  A logger is `Option (String → Except Exn Unit)`: absent
(`logger_` empty), or a callback that may itself throw. -/

/-- The data of a `Simple_thread_pool` object relevant to the
sequential member functions: the work queue (`queue_`), the number of
worker threads (`workers_.size()`), and the running flag
(`is_started_`). -/
structure PoolData where
  queue : List (Except Exn Unit)
  workerCount : Nat
  is_started : Bool
deriving Repr

/-- The default member initializers of `Simple_thread_pool`: empty
queue, no workers, `is_started_{}` (false).  This is the object state
when the constructor body throws. -/
def defaultInit : PoolData :=
  { queue := [], workerCount := 0, is_started := false }

/-- `Simple_thread_pool::Simple_thread_pool(size, logger)`: after the
member initializers, `if (!size) throw Exception{...}`; otherwise
`is_started_ = true`, `workers_.resize(size)` and `size` worker threads
are started.  The result is the object state paired with the thrown
exception, if any. -/
def mkPool (size : Nat) : PoolData × Option Exn :=
  if size = 0 then
    (defaultInit, some (.std "cannot create thread pool: empty pool is not allowed"))
  else
    ({ queue := [], workerCount := size, is_started := true }, none)

/-- `Simple_thread_pool::Simple_thread_pool(logger)`: delegates to the
sized constructor with `std::thread::hardware_concurrency()`, here a
parameter since it is host-reported. -/
def mkPoolDefault (hardware_concurrency : Nat) : PoolData × Option Exn :=
  mkPool hardware_concurrency

/-- `Simple_thread_pool::submit(function)`: `if (!function) throw
Exception{"thread pool worker is invalid"};` then, under `queue_mutex_`,
`queue_.push(std::move(function))` and `state_changed_.notify_one()`.
Returns the object state paired with the thrown exception, if any. -/
def submit (pool : PoolData) (function : Option (Except Exn Unit)) :
    PoolData × Option Exn :=
  match function with
  | none => (pool, some (.std "thread pool worker is invalid"))
  | some f => ({ pool with queue := pool.queue ++ [f] }, none)

/-- `Simple_thread_pool::clear()`: under `queue_mutex_`, `queue_ = {}`.
`noexcept`, returns nothing. -/
def clear (pool : PoolData) : PoolData :=
  { pool with queue := [] }

/-- `Simple_thread_pool::queue_size()`: `queue_.size()` under
`queue_mutex_`. -/
def queue_size (pool : PoolData) : Nat :=
  pool.queue.length

/-- `Simple_thread_pool::size()`: `workers_.size()` under
`work_mutex_`. -/
def pool_size (pool : PoolData) : Nat :=
  pool.workerCount

/-- `Simple_thread_pool::log_error(what)`: `try { if (logger_)
logger_(what); } catch (...) {}`.  The result is the list of invocations
made on the logger (empty or `[what]`) paired with the outcome of the
whole body, the final `catch (...)` included. -/
def log_error (logger : Option (String → Except Exn Unit)) (what : String) :
    List String × Except Exn Unit :=
  match logger with
  | none => ([], .ok ())
  | some f =>
    ([what],
     match f what with
     | .ok _ => .ok ()
     | .error _ => .ok ())

/-- One iteration of the `try`/`catch` body of
`Simple_thread_pool::wait_and_run` after a task `func` has been
dequeued: `func()` runs; `catch (const std::exception& e)` calls
`log_error(e.what())`; `catch (...)` calls `log_error("unknown
error")`.  The result is the list of invocations made on the logger
paired with the outcome of the guarded body: `.ok ()` means no
exception escaped, so the `while (true)` loop continues and the worker
returns to waiting. -/
def worker_run_task (logger : Option (String → Except Exn Unit))
    (func : Except Exn Unit) : List String × Except Exn Unit :=
  match func with
  | .ok _ => ([], .ok ())
  | .error (.std what) => log_error logger what
  | .error .unknown => log_error logger "unknown error"

/-! ### Functional embedding of `set_affinity` -/

/-- The category of a `std::error_code` produced by `set_affinity`:
both paths use `std::generic_category()`. -/
inductive ErrorCategory where
  | generic
deriving DecidableEq, Repr

/-- A `std::error_code`: an integer value and a category. -/
structure ErrorCode where
  val : Int
  cat : ErrorCategory
deriving DecidableEq, Repr

/-- POSIX `EINVAL`, the value underlying
`std::errc::invalid_argument`. -/
def EINVAL : Int := 22

/-- `std::make_error_code(std::errc::invalid_argument)`. -/
def invalid_argument_code : ErrorCode := ⟨EINVAL, .generic⟩

/-- A record of one OS-level call to `pthread_setaffinity_np`: the
thread handle and the CPU mask passed. -/
structure OsCall where
  handle : Nat
  mask : List Nat
deriving DecidableEq, Repr

/-- `CPU_ZERO(&set); CPU_SET(cpu, &set);`: the mask containing exactly
`cpu`. -/
def cpuMask (cpu : Nat) : List Nat := [cpu]

/-- `set_affinity(handle, cpu)`.  A `pthread_t` is modelled as a `Nat`
with `0` the null handle; `hardware_concurrency` is host-reported;
`os` models the return value of `pthread_setaffinity_np`.  Returns the
`std::error_code` result paired with the list of OS calls performed. -/
def set_affinity (hardware_concurrency : Nat) (os : Nat → List Nat → Int)
    (handle : Nat) (cpu : Nat) : ErrorCode × List OsCall :=
  if ¬(handle ≠ 0 ∧ cpu < hardware_concurrency) then
    (invalid_argument_code, [])
  else
    (⟨os handle (cpuMask cpu), .generic⟩, [⟨handle, cpuMask cpu⟩])

/-! ### Interleaving transition system for the pool's concurrency

Worker threads run `wait_and_run`; the destructor thread runs
`~Simple_thread_pool`; clients may call `submit` and `clear`.  Tasks are
identified by `Nat` ids (only valid tasks reach the queue: `submit`
rejects an empty `std::function` before touching it, see `submit`
above).  Shared data (`queue_`, `is_started_`) changes only at mutex
boundaries, so an atomic step of the system is a maximal code region
executed under a single mutex acquisition (or touching no shared data).
Crucially, faithful to the source, the destructor holds `work_mutex_`
— not `queue_mutex_` — while it writes `is_started_` and notifies,
while the workers read `is_started_` inside the wait predicate under
`queue_mutex_`. -/

/-- The control state of one worker thread inside `wait_and_run`. -/
inductive WState where
  /-- At the top of the loop (or re-checking after a notification):
  about to acquire `queue_mutex_`. -/
  | idle
  /-- Holding `queue_mutex_`, about to evaluate the wait predicate
  `!queue_.empty() || !is_started_`. -/
  | checking
  /-- Holding `queue_mutex_`; the wait predicate evaluated to false, so
  the thread is about to enter `state_changed_.wait(lk)`, which
  atomically releases the lock and blocks. -/
  | predFalse
  /-- Holding `queue_mutex_`; the wait predicate evaluated to true, so
  `wait` returned and the worker is about to run the
  `if (is_started_)` dispatch check. -/
  | dispatch
  /-- Blocked inside `state_changed_.wait` with `queue_mutex_`
  released; leaves this state only upon a notification. -/
  | blocked
  /-- Running task `t` outside the lock (`func()`). -/
  | executing (t : Nat)
  /-- Returned from `wait_and_run`; the thread has exited. -/
  | terminated
deriving DecidableEq, Repr

/-- The control state of the destructor thread in
`~Simple_thread_pool`. -/
inductive DState where
  /-- The destructor has not been invoked. -/
  | notCalled
  /-- `std::lock_guard lg{work_mutex_}` acquired. -/
  | locked
  /-- `is_started_ = false` performed (under `work_mutex_` only). -/
  | flagCleared
  /-- `state_changed_.notify_all()` performed; now joining every
  worker, which blocks until all have terminated. -/
  | notified
  /-- All workers joined; destruction complete. -/
  | done
deriving DecidableEq, Repr

/-- A global state of the system: the shared pool data, the control
state of each worker and of the destructor thread, plus history
variables (`started`: the tasks dequeued for execution, in order;
`submitted`: the tasks pushed, in order) and the outcome of the
`DMITIGR_ASSERT(!queue_.empty())` in `wait_and_run`. -/
structure Pool where
  queue : List Nat
  is_started : Bool
  workers : List WState
  dstate : DState
  started : List Nat
  submitted : List Nat
  assertFailed : Bool
deriving DecidableEq, Repr

/-- Does a worker in this control state hold `queue_mutex_`? -/
def holdsQueueLock : WState → Bool
  | .checking => true
  | .predFalse => true
  | .dispatch => true
  | _ => false

/-- Is `queue_mutex_` currently held by some worker? -/
def queueLockedB (s : Pool) : Bool :=
  s.workers.any holdsQueueLock

/-- One step of worker `i` in `wait_and_run`.  `none` means the worker
cannot step (it is blocked on the mutex or the condition variable, or
has terminated, or does not exist). -/
def wstep (s : Pool) (i : Nat) : Option Pool :=
  match s.workers[i]? with
  | none => none
  | some .idle =>
    if queueLockedB s then none
    else some { s with workers := s.workers.set i .checking }
  | some .checking =>
    if !s.queue.isEmpty || !s.is_started then
      some { s with workers := s.workers.set i .dispatch }
    else
      some { s with workers := s.workers.set i .predFalse }
  | some .predFalse =>
    some { s with workers := s.workers.set i .blocked }
  | some .dispatch =>
    if s.is_started then
      match s.queue with
      | [] => some { s with assertFailed := true }
      | t :: rest =>
        some { s with queue := rest, started := s.started ++ [t],
                      workers := s.workers.set i (.executing t) }
    else
      some { s with workers := s.workers.set i .terminated }
  | some (.executing _) =>
    some { s with workers := s.workers.set i .idle }
  | some .blocked => none
  | some .terminated => none

/-- One step of the destructor thread: acquire `work_mutex_`, set
`is_started_ = false`, `notify_all()` (every worker blocked in the
condition wait becomes runnable and will re-acquire the lock and
re-check the predicate), then join every worker — which completes only
once all workers have terminated. -/
def dstep (s : Pool) : Option Pool :=
  match s.dstate with
  | .notCalled => some { s with dstate := .locked }
  | .locked => some { s with is_started := false, dstate := .flagCleared }
  | .flagCleared =>
    some { s with
      workers := s.workers.map (fun w => if w = .blocked then .idle else w),
      dstate := .notified }
  | .notified =>
    if s.workers.all (fun w => w = .terminated) then
      some { s with dstate := .done }
    else none
  | .done => none

/-- `notify_one()` as performed by `submit`: the first worker blocked
in the condition wait, if any, becomes runnable (it will re-acquire the
lock and re-check the predicate). -/
def wakeOne : List WState → List WState
  | [] => []
  | w :: ws => if w = .blocked then .idle :: ws else w :: wakeOne ws

/-- A client call to `submit` with a valid task `t`: under
`queue_mutex_`, push `t` and `notify_one()`.  Disabled while a worker
holds the mutex. -/
def submitStep (s : Pool) (t : Nat) : Option Pool :=
  if queueLockedB s then none
  else some { s with queue := s.queue ++ [t], submitted := s.submitted ++ [t],
                     workers := wakeOne s.workers }

/-- A client call to `clear`: under `queue_mutex_`, `queue_ = {}`.
Disabled while a worker holds the mutex. -/
def clearStep (s : Pool) : Option Pool :=
  if queueLockedB s then none
  else some { s with queue := [] }

/-- An atomic action of the system. -/
inductive Act where
  | worker (i : Nat)
  | dtor
  | submit (t : Nat)
  | clear
deriving DecidableEq, Repr

/-- Perform one action. -/
def step (a : Act) (s : Pool) : Option Pool :=
  match a with
  | .worker i => wstep s i
  | .dtor => dstep s
  | .submit t => submitStep s t
  | .clear => clearStep s

/-- Run a sequence of actions; `none` if some action is not enabled at
the state it is attempted in. -/
def run : List Act → Pool → Option Pool
  | [], s => some s
  | a :: acts, s =>
    match step a s with
    | none => none
    | some s1 => run acts s1

/-- The state immediately after a successful
`Simple_thread_pool(n, logger)`: empty queue, `is_started_` true, `n`
workers at the top of their loop. -/
def initPool (n : Nat) : Pool :=
  { queue := [], is_started := true, workers := List.replicate n .idle,
    dstate := .notCalled, started := [], submitted := [],
    assertFailed := false }

/-! ### Lock bookkeeping lemmas -/

/-- Whether the worker at position `i` holds `queue_mutex_`. -/
def lockAtL (ws : List WState) (i : Nat) : Bool :=
  match ws[i]? with
  | some w => holdsQueueLock w
  | none => false

theorem lockAtL_eq_of_get (ws : List WState) (i : Nat) (w : WState)
    (h : ws[i]? = some w) : lockAtL ws i = holdsQueueLock w := by
  simp [lockAtL, h]

theorem lockAtL_set_ne (ws : List WState) (i j : Nat) (v : WState)
    (h : i ≠ j) : lockAtL (ws.set i v) j = lockAtL ws j := by
  simp [lockAtL, List.getElem?_set_ne h]

theorem lockAtL_set_self (ws : List WState) (i : Nat) (v : WState)
    (h : i < ws.length) : lockAtL (ws.set i v) i = holdsQueueLock v := by
  simp [lockAtL, List.getElem?_set_self h]

theorem lockAtL_false_of_not_any (ws : List WState)
    (h : ws.any holdsQueueLock = false) (j : Nat) : lockAtL ws j = false := by
  cases hw : ws[j]? with
  | none => simp [lockAtL, hw]
  | some w =>
    have hm := List.getElem?_mem hw
    have hl : holdsQueueLock w = false := by
      cases hh : holdsQueueLock w
      · rfl
      · exact absurd (List.any_eq_true.mpr ⟨w, hm, hh⟩) (by simp [h])
    simp [lockAtL, hw, hl]

theorem lockAtL_true_of_dispatch (ws : List WState) (j : Nat)
    (h : ws[j]? = some .dispatch) : lockAtL ws j = true := by
  rw [lockAtL_eq_of_get _ _ _ h]; rfl

theorem wakeOne_length (ws : List WState) : (wakeOne ws).length = ws.length := by
  induction ws with
  | nil => rfl
  | cons x xs ih =>
    unfold wakeOne
    by_cases hx : x = .blocked
    · rw [if_pos hx]; rfl
    · rw [if_neg hx]; simpa using ih

theorem wakeOne_mem (ws : List WState) (w : WState) (h : w ∈ wakeOne ws) :
    w = .idle ∨ w ∈ ws := by
  induction ws with
  | nil => cases h
  | cons x xs ih =>
    unfold wakeOne at h
    by_cases hx : x = .blocked
    · rw [if_pos hx] at h
      rcases List.mem_cons.mp h with h1 | h1
      · exact Or.inl h1
      · exact Or.inr (List.mem_cons_of_mem _ h1)
    · rw [if_neg hx] at h
      rcases List.mem_cons.mp h with h1 | h1
      · exact Or.inr (h1 ▸ List.mem_cons_self x xs)
      · rcases ih h1 with h2 | h2
        · exact Or.inl h2
        · exact Or.inr (List.mem_cons_of_mem _ h2)

theorem wakeOne_not_any (ws : List WState)
    (h : ws.any holdsQueueLock = false) :
    (wakeOne ws).any holdsQueueLock = false := by
  cases hh : (wakeOne ws).any holdsQueueLock
  · rfl
  · obtain ⟨x, hx, hl⟩ := List.any_eq_true.mp hh
    rcases wakeOne_mem ws x hx with rfl | hm
    · cases hl
    · exact absurd (List.any_eq_true.mpr ⟨x, hm, hl⟩) (by simp [h])

theorem wake_all_lock (w : WState) :
    holdsQueueLock (if w = .blocked then .idle else w) = holdsQueueLock w := by
  cases w <;> simp [holdsQueueLock]

theorem lockAtL_wake_all (ws : List WState) (j : Nat) :
    lockAtL (ws.map (fun w => if w = .blocked then .idle else w)) j
      = lockAtL ws j := by
  cases hw : ws[j]? with
  | none => simp [lockAtL, List.getElem?_map, hw]
  | some w => simp [lockAtL, List.getElem?_map, hw, wake_all_lock]

theorem wake_all_dispatch (w : WState)
    (h : (if w = .blocked then .idle else w) = .dispatch) : w = .dispatch := by
  cases w <;> simp_all

theorem mutex_set_nonlocker (ws : List WState) (i : Nat) (v : WState)
    (hlen : i < ws.length) (hv : holdsQueueLock v = false)
    (hM : ∀ j k, lockAtL ws j = true → lockAtL ws k = true → j = k) :
    ∀ j k, lockAtL (ws.set i v) j = true → lockAtL (ws.set i v) k = true →
      j = k := by
  have hold : ∀ j, lockAtL (ws.set i v) j = true → lockAtL ws j = true := by
    intro j hj
    by_cases hji : j = i
    · subst hji; rw [lockAtL_set_self _ _ _ hlen, hv] at hj; cases hj
    · rwa [lockAtL_set_ne _ _ _ _ (fun he => hji he.symm)] at hj
  intro j k hj hk
  exact hM j k (hold j hj) (hold k hk)

theorem mutex_set_locker_swap (ws : List WState) (i : Nat) (v w : WState)
    (hlen : i < ws.length) (hw : ws[i]? = some w)
    (hvw : holdsQueueLock v = holdsQueueLock w)
    (hM : ∀ j k, lockAtL ws j = true → lockAtL ws k = true → j = k) :
    ∀ j k, lockAtL (ws.set i v) j = true → lockAtL (ws.set i v) k = true →
      j = k := by
  have key : ∀ j, lockAtL (ws.set i v) j = lockAtL ws j := by
    intro j
    by_cases hji : j = i
    · subst hji
      rw [lockAtL_set_self _ _ _ hlen, lockAtL_eq_of_get _ _ _ hw, hvw]
    · exact lockAtL_set_ne _ _ _ _ (fun he => hji he.symm)
  intro j k hj hk
  rw [key j] at hj
  rw [key k] at hk
  exact hM j k hj hk

theorem dispatchAt_set_other (ws : List WState) (i j : Nat) (v : WState)
    (hlen : i < ws.length) (hvd : v ≠ .dispatch)
    (hdj : (ws.set i v)[j]? = some .dispatch) :
    j ≠ i ∧ ws[j]? = some .dispatch := by
  by_cases hji : j = i
  · subst hji
    rw [List.getElem?_set_self hlen] at hdj
    exact absurd (Option.some.inj hdj) hvd
  · rw [List.getElem?_set_ne (fun he => hji he.symm)] at hdj
    exact ⟨hji, hdj⟩

/-! ### The reachability invariant

In every reachable state of the pool: the `DMITIGR_ASSERT` in
`wait_and_run` has not failed, `queue_mutex_` is held by at most one
worker, and a worker that has passed the wait predicate (control state
`dispatch`) did so with the queue non-empty or the pool stopped.  The
key facts making this inductive are that `is_started_` is one-way
(never reset to `true`) and that the queue is mutated only under
`queue_mutex_`, which the `dispatch`-state worker holds. -/
def Inv (s : Pool) : Prop :=
  s.assertFailed = false ∧
  (∀ j k, lockAtL s.workers j = true → lockAtL s.workers k = true → j = k) ∧
  (∀ (j : Nat), s.workers[j]? = some WState.dispatch →
    s.queue ≠ [] ∨ s.is_started = false)

theorem inv_init (n : Nat) : Inv (initPool n) := by
  have hno : (List.replicate n WState.idle).any holdsQueueLock = false := by
    cases hh : (List.replicate n WState.idle).any holdsQueueLock
    · rfl
    · obtain ⟨x, hx, hl⟩ := List.any_eq_true.mp hh
      rw [List.eq_of_mem_replicate hx] at hl
      cases hl
  refine ⟨rfl, ?_, ?_⟩
  · intro j k hj _
    have hj' : lockAtL (List.replicate n WState.idle) j = true := hj
    rw [lockAtL_false_of_not_any _ hno j] at hj'
    cases hj'
  · intro j hdj
    exfalso
    have hdj' : (List.replicate n WState.idle)[j]? = some WState.dispatch := hdj
    have := lockAtL_true_of_dispatch _ _ hdj'
    rw [lockAtL_false_of_not_any _ hno j] at this
    cases this

theorem inv_step (a : Act) (s s' : Pool) (hInv : Inv s)
    (h : step a s = some s') : Inv s' := by
  obtain ⟨hA, hM, hD⟩ := hInv
  cases a with
  | worker i =>
    simp only [step, wstep] at h
    cases hw : s.workers[i]? with
    | none => simp [hw] at h
    | some w =>
      obtain ⟨hlen, -⟩ := List.getElem?_eq_some_iff.mp hw
      cases w with
      | idle =>
        simp only [hw] at h
        cases hq : queueLockedB s
        · simp [hq] at h
          subst h
          refine ⟨hA, ?_, ?_⟩
          · intro j k hj hk
            have hji : j = i := by
              by_contra hne
              rw [lockAtL_set_ne _ _ _ _ (fun he => hne he.symm)] at hj
              rw [lockAtL_false_of_not_any _ hq j] at hj
              cases hj
            have hki : k = i := by
              by_contra hne
              rw [lockAtL_set_ne _ _ _ _ (fun he => hne he.symm)] at hk
              rw [lockAtL_false_of_not_any _ hq k] at hk
              cases hk
            rw [hji, hki]
          · intro j hdj
            obtain ⟨-, hdj'⟩ := dispatchAt_set_other _ _ _ _ hlen (by simp) hdj
            exact hD j hdj'
        · simp [hq] at h
      | checking =>
        simp only [hw] at h
        cases hp : (!s.queue.isEmpty || !s.is_started)
        · simp [hp] at h
          subst h
          refine ⟨hA, mutex_set_locker_swap _ _ _ _ hlen hw rfl hM, ?_⟩
          · intro j hdj
            obtain ⟨-, hdj'⟩ := dispatchAt_set_other _ _ _ _ hlen (by simp) hdj
            exact hD j hdj'
        · simp [hp] at h
          subst h
          refine ⟨hA, mutex_set_locker_swap _ _ _ _ hlen hw rfl hM, ?_⟩
          · intro j hdj
            by_cases hji : j = i
            · subst hji
              rw [List.getElem?_set_self hlen] at hdj
              -- the new dispatch worker: the wait predicate held
              cases hqe : s.queue.isEmpty
              · exact Or.inl (fun hnil => by rw [hnil] at hqe; cases hqe)
              · cases hst : s.is_started
                · exact Or.inr rfl
                · rw [hqe, hst] at hp; cases hp
            · rw [List.getElem?_set_ne (fun he => hji he.symm)] at hdj
              exact hD j hdj
      | predFalse =>
        simp only [hw] at h
        obtain rfl := Option.some.inj h
        refine ⟨hA, mutex_set_nonlocker _ _ _ hlen rfl hM, ?_⟩
        intro j hdj
        obtain ⟨-, hdj'⟩ := dispatchAt_set_other _ _ _ _ hlen (by simp) hdj
        exact hD j hdj'
      | dispatch =>
        simp only [hw] at h
        cases hst : s.is_started
        · simp [hst] at h
          subst h
          refine ⟨hA, mutex_set_nonlocker _ _ _ hlen rfl hM, ?_⟩
          intro j _
          exact Or.inr rfl
        · rcases hD i hw with hne | hfl
          · cases hqq : s.queue with
            | nil => exact absurd hqq hne
            | cons t rest =>
              simp [hst, hqq] at h
              subst h
              refine ⟨hA, mutex_set_nonlocker _ _ _ hlen rfl hM, ?_⟩
              intro j hdj
              obtain ⟨hji, hdj'⟩ :=
                dispatchAt_set_other _ _ _ _ hlen (by simp) hdj
              exact absurd
                (hM j i (lockAtL_true_of_dispatch _ _ hdj')
                  (lockAtL_true_of_dispatch _ _ hw)) hji
          · rw [hst] at hfl; cases hfl
      | executing t =>
        simp only [hw] at h
        obtain rfl := Option.some.inj h
        refine ⟨hA, mutex_set_nonlocker _ _ _ hlen rfl hM, ?_⟩
        intro j hdj
        obtain ⟨-, hdj'⟩ := dispatchAt_set_other _ _ _ _ hlen (by simp) hdj
        exact hD j hdj'
      | blocked => simp [hw] at h
      | terminated => simp [hw] at h
  | dtor =>
    simp only [step, dstep] at h
    cases hds : s.dstate with
    | notCalled =>
      simp only [hds] at h
      obtain rfl := Option.some.inj h
      exact ⟨hA, hM, hD⟩
    | locked =>
      simp only [hds] at h
      obtain rfl := Option.some.inj h
      exact ⟨hA, hM, fun j _ => Or.inr rfl⟩
    | flagCleared =>
      simp only [hds] at h
      obtain rfl := Option.some.inj h
      refine ⟨hA, ?_, ?_⟩
      · intro j k hj hk
        rw [lockAtL_wake_all] at hj hk
        exact hM j k hj hk
      · intro j hdj
        rw [List.getElem?_map] at hdj
        obtain ⟨w, hgw, hfw⟩ := Option.map_eq_some'.mp hdj
        rw [wake_all_dispatch w hfw] at hgw
        exact hD j hgw
    | notified =>
      simp only [hds] at h
      cases hall : s.workers.all (fun w => w = .terminated)
      · simp [hall] at h
      · simp [hall] at h
        subst h
        exact ⟨hA, hM, hD⟩
    | done => simp [hds] at h
  | submit t =>
    simp only [step, submitStep] at h
    cases hq : queueLockedB s
    · simp [hq] at h
      subst h
      refine ⟨hA, ?_, ?_⟩
      · intro j k hj _
        exfalso
        rw [lockAtL_false_of_not_any _ (wakeOne_not_any _ hq) j] at hj
        cases hj
      · intro j _
        exact Or.inl (by simp)
    · simp [hq] at h
  | clear =>
    simp only [step, clearStep] at h
    cases hq : queueLockedB s
    · simp [hq] at h
      subst h
      refine ⟨hA, fun j k hj hk => hM j k hj hk, ?_⟩
      intro j hdj
      exfalso
      have := lockAtL_true_of_dispatch _ _ hdj
      rw [lockAtL_false_of_not_any _ hq j] at this
      cases this
    · simp [hq] at h

/-- A worker index beyond the pool size never steps. -/
theorem wstep_oob (s : Pool) (i : Nat) (h : s.workers.length ≤ i) :
    wstep s i = none := by
  unfold wstep
  rw [List.getElem?_eq_none h]

/-- What one step does to the history variables and the worker set:
the worker count never changes; outside `clear`, the dequeue log
concatenated with the queue equals the submission log (FIFO); a task
neither queued, dequeued, nor submitted by this step stays that way. -/
theorem step_effects (a : Act) (s s' : Pool) (t : Nat)
    (h : step a s = some s') :
    s'.workers.length = s.workers.length ∧
    (a ≠ Act.clear → s.started ++ s.queue = s.submitted →
      s'.started ++ s'.queue = s'.submitted) ∧
    (a ≠ Act.submit t → t ∉ s.queue → t ∉ s.started →
      t ∉ s'.queue ∧ t ∉ s'.started) := by
  cases a with
  | worker i =>
    simp only [step, wstep] at h
    cases hw : s.workers[i]? with
    | none => simp [hw] at h
    | some w =>
      cases w with
      | idle =>
        simp only [hw] at h
        cases hq : queueLockedB s
        · simp [hq] at h
          subst h
          exact ⟨by simp, fun _ hf => hf, fun _ hq ht => ⟨hq, ht⟩⟩
        · simp [hq] at h
      | checking =>
        simp only [hw] at h
        cases hp : (!s.queue.isEmpty || !s.is_started) <;> simp [hp] at h <;>
          subst h <;>
          exact ⟨by simp, fun _ hf => hf, fun _ hq ht => ⟨hq, ht⟩⟩
      | predFalse =>
        simp only [hw] at h
        obtain rfl := Option.some.inj h
        exact ⟨by simp, fun _ hf => hf, fun _ hq ht => ⟨hq, ht⟩⟩
      | dispatch =>
        simp only [hw] at h
        cases hst : s.is_started
        · simp [hst] at h
          subst h
          exact ⟨by simp, fun _ hf => hf, fun _ hq ht => ⟨hq, ht⟩⟩
        · cases hqq : s.queue with
          | nil =>
            simp [hst, hqq] at h
            subst h
            exact ⟨rfl, fun _ hf => hf, fun _ hq ht => ⟨hq, ht⟩⟩
          | cons u rest =>
            simp [hst, hqq] at h
            subst h
            refine ⟨by simp, ?_, ?_⟩
            · intro _ hf
              rw [← hf]
              simp
            · intro _ hq ht
              constructor
              · exact fun hm => hq (List.mem_cons_of_mem _ hm)
              · intro hm
                rcases List.mem_append.mp hm with hm | hm
                · exact ht hm
                · rw [List.mem_singleton.mp hm] at hq
                  exact hq (List.mem_cons_self _ _)
      | executing u =>
        simp only [hw] at h
        obtain rfl := Option.some.inj h
        exact ⟨by simp, fun _ hf => hf, fun _ hq ht => ⟨hq, ht⟩⟩
      | blocked => simp [hw] at h
      | terminated => simp [hw] at h
  | dtor =>
    simp only [step, dstep] at h
    cases hds : s.dstate with
    | notCalled =>
      simp only [hds] at h
      obtain rfl := Option.some.inj h
      exact ⟨rfl, fun _ hf => hf, fun _ hq ht => ⟨hq, ht⟩⟩
    | locked =>
      simp only [hds] at h
      obtain rfl := Option.some.inj h
      exact ⟨rfl, fun _ hf => hf, fun _ hq ht => ⟨hq, ht⟩⟩
    | flagCleared =>
      simp only [hds] at h
      obtain rfl := Option.some.inj h
      exact ⟨by simp, fun _ hf => hf, fun _ hq ht => ⟨hq, ht⟩⟩
    | notified =>
      simp only [hds] at h
      cases hall : s.workers.all (fun w => w = .terminated)
      · simp [hall] at h
      · simp [hall] at h
        subst h
        exact ⟨rfl, fun _ hf => hf, fun _ hq ht => ⟨hq, ht⟩⟩
    | done => simp [hds] at h
  | submit u =>
    simp only [step, submitStep] at h
    cases hq : queueLockedB s
    · simp [hq] at h
      subst h
      refine ⟨by simp [wakeOne_length], ?_, ?_⟩
      · intro _ hf
        rw [← List.append_assoc, hf]
      · intro hne hq ht
        have hut : t ≠ u := by
          intro he
          exact hne (by rw [he])
        constructor
        · intro hm
          rcases List.mem_append.mp hm with hm | hm
          · exact hq hm
          · exact hut (List.mem_singleton.mp hm)
        · exact ht
    · simp [hq] at h
  | clear =>
    simp only [step, clearStep] at h
    cases hq : queueLockedB s
    · simp [hq] at h
      subst h
      exact ⟨rfl, fun hne _ => absurd rfl hne, fun _ _ ht => ⟨by simp, ht⟩⟩
    · simp [hq] at h

theorem inv_run : ∀ (acts : List Act) (s s' : Pool), Inv s →
    run acts s = some s' → Inv s' := by
  intro acts
  induction acts with
  | nil =>
    intro s s' hInv h
    cases h
    exact hInv
  | cons a acts ih =>
    intro s s' hInv h
    simp only [run] at h
    cases hs : step a s with
    | none => rw [hs] at h; cases h
    | some s1 =>
      rw [hs] at h
      exact ih s1 s' (inv_step a s s1 hInv hs) h

theorem run_workers_length : ∀ (acts : List Act) (s s' : Pool),
    run acts s = some s' → s'.workers.length = s.workers.length := by
  intro acts
  induction acts with
  | nil => intro s s' h; cases h; rfl
  | cons a acts ih =>
    intro s s' h
    simp only [run] at h
    cases hs : step a s with
    | none => rw [hs] at h; cases h
    | some s1 =>
      rw [hs] at h
      exact (ih s1 s' h).trans (step_effects a s s1 0 hs).1

theorem run_fifo : ∀ (acts : List Act) (s s' : Pool), Act.clear ∉ acts →
    s.started ++ s.queue = s.submitted → run acts s = some s' →
    s'.started ++ s'.queue = s'.submitted := by
  intro acts
  induction acts with
  | nil => intro s s' _ hf h; cases h; exact hf
  | cons a acts ih =>
    intro s s' hcl hf h
    simp only [run] at h
    cases hs : step a s with
    | none => rw [hs] at h; cases h
    | some s1 =>
      rw [hs] at h
      have ha : a ≠ Act.clear := fun he => hcl (he ▸ List.mem_cons_self a acts)
      exact ih s1 s' (fun hm => hcl (List.mem_cons_of_mem a hm))
        ((step_effects a s s1 0 hs).2.1 ha hf) h

theorem run_not_started : ∀ (acts : List Act) (s s' : Pool) (t : Nat),
    Act.submit t ∉ acts → t ∉ s.queue → t ∉ s.started →
    run acts s = some s' → t ∉ s'.queue ∧ t ∉ s'.started := by
  intro acts
  induction acts with
  | nil => intro s s' t _ hq ht h; cases h; exact ⟨hq, ht⟩
  | cons a acts ih =>
    intro s s' t hsub hq ht h
    simp only [run] at h
    cases hs : step a s with
    | none => rw [hs] at h; cases h
    | some s1 =>
      rw [hs] at h
      have ha : a ≠ Act.submit t := fun he =>
        hsub (he ▸ List.mem_cons_self a acts)
      obtain ⟨hq1, ht1⟩ := (step_effects a s s1 t hs).2.2 ha hq ht
      exact ih s1 s' t (fun hm => hsub (List.mem_cons_of_mem a hm)) hq1 ht1 h

/-! ### Claim theorems -/

/-- The interleaving exhibiting the missed wakeup in
`~Simple_thread_pool`: the single worker acquires `queue_mutex_` and
evaluates the wait predicate as false (queue empty, pool running); the
destructor then — holding only `work_mutex_` — sets `is_started_` to
false and calls `notify_all()`, which wakes nobody because the worker
is not yet blocked; the worker then enters the condition wait. -/
def missedWakeupTrace : List Act :=
  [.worker 0, .worker 0, .dtor, .dtor, .dtor, .worker 0]

/-- The state reached by `missedWakeupTrace`: the worker is blocked in
the condition wait and the destructor is joining. -/
def missedWakeupState : Pool :=
  { queue := [], is_started := false, workers := [.blocked],
    dstate := .notified, started := [], submitted := [],
    assertFailed := false }

/-- Claim C1: the claim asserts that destruction always completes (every
worker terminates and is joined) with no missed wakeup.  This fails on
the code: because `~Simple_thread_pool` writes `is_started_` and
notifies under `work_mutex_` while the workers read `is_started_` in
the wait predicate under `queue_mutex_`, the interleaving
`missedWakeupTrace` is reachable from a freshly constructed pool of
size 1 and leaves the system in `missedWakeupState`, where no worker
step and no destructor step is enabled: the worker is blocked in the
wait forever (the `notify_all` preceded its block and nothing notifies
again) and the destructor is blocked in `join` forever, so destruction
never completes. -/
theorem C1_destructor_missed_wakeup_deadlock :
    run missedWakeupTrace (initPool 1) = some missedWakeupState ∧
    missedWakeupState.workers = [WState.blocked] ∧
    missedWakeupState.dstate = DState.notified ∧
    (∀ (i : Nat), step (Act.worker i) missedWakeupState = none) ∧
    step Act.dtor missedWakeupState = none ∧
    missedWakeupState.dstate ≠ DState.done := by
  refine ⟨by decide, rfl, rfl, ?_, by decide, by decide⟩
  intro i
  match i with
  | 0 => decide
  | Nat.succ m =>
    show wstep missedWakeupState (m + 1) = none
    exact wstep_oob _ _ (Nat.succ_le_succ (Nat.zero_le m))

/-- Claim C2: in every reachable state of a pool (under any
interleaving of workers, the destructor and submissions, with no
`clear`), the log of dequeued tasks followed by the current queue
equals the submission log: workers always remove the front of the FIFO
queue, so the dequeue order — and hence, with exactly one worker, the
execution start order — equals the submission order. -/
theorem C2_fifo_order (n : Nat) (acts : List Act) (s : Pool)
    (hclear : Act.clear ∉ acts)
    (h : run acts (initPool n) = some s) :
    s.started ++ s.queue = s.submitted ∧
    ∃ pending, s.started ++ pending = s.submitted := by
  have hf := run_fifo acts (initPool n) s hclear rfl h
  exact ⟨hf, s.queue, hf⟩

/-- A single-worker run: two tasks submitted, then the worker dequeues
and executes both. -/
def c2Trace : List Act :=
  [.submit 10, .submit 20, .worker 0, .worker 0, .worker 0, .worker 0,
   .worker 0, .worker 0, .worker 0, .worker 0]

/-- The state reached by `c2Trace`: both tasks started in submission
order. -/
def c2State : Pool :=
  { queue := [], is_started := true, workers := [.idle],
    dstate := .notCalled, started := [10, 20], submitted := [10, 20],
    assertFailed := false }

theorem C2_fifo_order_witness :
    c2State.started ++ c2State.queue = c2State.submitted ∧
    ∃ pending, c2State.started ++ pending = c2State.submitted :=
  C2_fifo_order 1 c2Trace c2State (by decide) (by decide)

/-- Claim C3: an exception thrown by a task is caught at the worker
boundary: the guarded body of `wait_and_run` always completes normally
(so the worker thread never terminates from a task failure and loops
back to waiting), the exception's message is forwarded to the logger
when one was supplied (`what()` for `std::exception`, "unknown error"
otherwise), an exception thrown by the logger itself is swallowed by
`log_error`'s `catch (...)`, no logger call is made when none was
supplied, and in the transition system a worker that finishes executing
a task returns to the top of its wait loop. -/
theorem C3_task_failure_contained
    (logger : Option (String → Except Exn Unit))
    (f : String → Except Exn Unit) (func : Except Exn Unit) (what : String)
    (s : Pool) (i t : Nat) :
    (worker_run_task logger func).2 = Except.ok () ∧
    (log_error logger what).2 = Except.ok () ∧
    (worker_run_task (some f) (Except.error (Exn.std what))).1 = [what] ∧
    (worker_run_task (some f) (Except.error Exn.unknown)).1
      = ["unknown error"] ∧
    (worker_run_task none func).1 = [] ∧
    (s.workers[i]? = some (WState.executing t) →
      step (Act.worker i) s =
        some { s with workers := s.workers.set i WState.idle }) := by
  have hlog : ∀ (lg : Option (String → Except Exn Unit)) (m : String),
      (log_error lg m).2 = Except.ok () := by
    intro lg m
    cases lg with
    | none => rfl
    | some g =>
      show (match g m with
            | .ok _ => Except.ok ()
            | .error _ => Except.ok ()) = Except.ok ()
      cases g m <;> rfl
  refine ⟨?_, hlog logger what, rfl, rfl, ?_, ?_⟩
  · cases func with
    | ok u => rfl
    | error e =>
      cases e with
      | std m => exact hlog logger m
      | unknown => exact hlog logger "unknown error"
  · cases func with
    | ok u => rfl
    | error e => cases e <;> rfl
  · intro hw
    simp [step, wstep, hw]

/-- A pool state with one worker mid-execution of task 7. -/
def c3State : Pool :=
  { queue := [], is_started := true, workers := [.executing 7],
    dstate := .notCalled, started := [7], submitted := [7],
    assertFailed := false }

theorem C3_task_failure_contained_witness :
    (worker_run_task (some (fun _ => Except.error Exn.unknown))
      (Except.error (Exn.std "boom"))).2 = Except.ok () ∧
    step (Act.worker 0) c3State =
      some { c3State with workers := c3State.workers.set 0 WState.idle } :=
  have h := C3_task_failure_contained
    (some (fun _ => Except.error Exn.unknown))
    (fun _ => Except.error Exn.unknown) (Except.error (Exn.std "boom"))
    "boom" c3State 0 7
  ⟨h.1, h.2.2.2.2.2 rfl⟩

/-- Claim C4: `submit` called with an empty callable throws the
"thread pool worker is invalid" exception before touching the queue:
the pool state is unchanged and `queue_size()` does not increase. -/
theorem C4_submit_invalid_task_rejected (pool : PoolData) :
    (submit pool none).2 = some (Exn.std "thread pool worker is invalid") ∧
    (submit pool none).1 = pool ∧
    queue_size (submit pool none).1 = queue_size pool :=
  ⟨rfl, rfl, rfl⟩

theorem C4_submit_invalid_task_rejected_witness :
    (submit defaultInit none).2
        = some (Exn.std "thread pool worker is invalid") ∧
    (submit defaultInit none).1 = defaultInit ∧
    queue_size (submit defaultInit none).1 = queue_size defaultInit :=
  C4_submit_invalid_task_rejected defaultInit

/-- Claim C5: in every reachable state of the pool, the
`DMITIGR_ASSERT(!queue_.empty())` of `wait_and_run` has not failed, and
any worker past its wait with the pool still running sees a non-empty
queue: a worker is only released from waiting with a queued item
available or with the stop condition set. -/
theorem C5_wait_assert_never_fails (n : Nat) (acts : List Act) (s : Pool)
    (h : run acts (initPool n) = some s) :
    s.assertFailed = false ∧
    (∀ (j : Nat), s.workers[j]? = some WState.dispatch →
      s.queue ≠ [] ∨ s.is_started = false) := by
  obtain ⟨hA, -, hD⟩ := inv_run acts (initPool n) s (inv_init n) h
  exact ⟨hA, hD⟩

/-- A run where the single worker is woken by a submission and
dequeues the task. -/
def c5Trace : List Act := [.submit 5, .worker 0, .worker 0, .worker 0]

/-- The state reached by `c5Trace`. -/
def c5State : Pool :=
  { queue := [], is_started := true, workers := [.executing 5],
    dstate := .notCalled, started := [5], submitted := [5],
    assertFailed := false }

theorem C5_wait_assert_never_fails_witness :
    c5State.assertFailed = false ∧
    (∀ (j : Nat), c5State.workers[j]? = some WState.dispatch →
      c5State.queue ≠ [] ∨ c5State.is_started = false) :=
  C5_wait_assert_never_fails 1 c5Trace c5State (by decide)

/-- Claim C6: `clear` empties the queue in one atomic step under the
queue lock (`queue_size()` is 0 afterwards), leaves the workers — and
any task already dequeued and mid-execution — untouched, never fails
when it can acquire the lock, and a task discarded from the queue is
never executed by any later steps that do not resubmit it. -/
theorem C6_clear_discards_queue (s s1 s2 : Pool) (acts : List Act) (t : Nat)
    (hc : step Act.clear s = some s1) :
    s1.queue = [] ∧
    s1.started = s.started ∧
    s1.workers = s.workers ∧
    (∀ (p : PoolData), queue_size (clear p) = 0 ∧
      (clear p).workerCount = p.workerCount) ∧
    (∀ (r : Pool), queueLockedB r = false → (step Act.clear r).isSome) ∧
    (t ∉ s.started → Act.submit t ∉ acts → run acts s1 = some s2 →
      t ∉ s2.started) := by
  have hs1 : s1 = { s with queue := [] } := by
    simp only [step, clearStep] at hc
    cases hq : queueLockedB s
    · rw [hq] at hc
      simp at hc
      exact hc.symm
    · rw [hq] at hc
      simp at hc
  subst hs1
  refine ⟨rfl, rfl, rfl, fun p => ⟨rfl, rfl⟩, ?_, ?_⟩
  · intro r hr
    simp [step, clearStep, hr]
  · intro ht hsub hrun
    exact (run_not_started acts { s with queue := [] } s2 t hsub
      (by simp) ht hrun).2

/-- A single-worker pool with two tasks queued and none started. -/
def c6Pre : Pool :=
  { queue := [1, 2], is_started := true, workers := [.idle],
    dstate := .notCalled, started := [], submitted := [1, 2],
    assertFailed := false }

/-- `c6Pre` after `clear`. -/
def c6Cleared : Pool :=
  { queue := [], is_started := true, workers := [.idle],
    dstate := .notCalled, started := [], submitted := [1, 2],
    assertFailed := false }

/-- `c6Cleared` after the worker acquires the lock to re-check. -/
def c6Post : Pool :=
  { queue := [], is_started := true, workers := [.checking],
    dstate := .notCalled, started := [], submitted := [1, 2],
    assertFailed := false }

theorem C6_clear_discards_queue_witness :
    c6Cleared.queue = [] ∧ (1 : Nat) ∉ c6Post.started :=
  have h := C6_clear_discards_queue c6Pre c6Cleared c6Post
    [Act.worker 0] 1 (by decide)
  ⟨h.1, h.2.2.2.2.2 (by decide) (by decide) (by decide)⟩

/-- Claim C7: constructing a pool of size 0 throws the "empty pool is
not allowed" exception; the partially constructed object has started no
worker and `is_started_` is still false. -/
theorem C7_zero_size_pool_rejected :
    (mkPool 0).2
      = some (Exn.std "cannot create thread pool: empty pool is not allowed") ∧
    (mkPool 0).1.workerCount = 0 ∧
    (mkPool 0).1.is_started = false :=
  ⟨rfl, rfl, rfl⟩

/-- Claim C8: `set_affinity` rejects a null handle or a cpu index not
strictly below the host's hardware concurrency with an invalid-argument
error and no OS call; otherwise it performs exactly one
`pthread_setaffinity_np` call with the mask containing only `cpu`, and
returns that call's result verbatim in the generic category. -/
theorem C8_set_affinity_validation (hw : Nat) (os : Nat → List Nat → Int)
    (handle cpu : Nat) :
    (¬(handle ≠ 0 ∧ cpu < hw) →
      set_affinity hw os handle cpu = (invalid_argument_code, [])) ∧
    ((handle ≠ 0 ∧ cpu < hw) →
      set_affinity hw os handle cpu =
        (⟨os handle (cpuMask cpu), ErrorCategory.generic⟩,
         [⟨handle, cpuMask cpu⟩])) ∧
    cpuMask cpu = [cpu] := by
  refine ⟨?_, ?_, rfl⟩
  · intro hbad
    unfold set_affinity
    rw [if_pos hbad]
  · intro hok
    unfold set_affinity
    rw [if_neg (not_not_intro hok)]

theorem C8_set_affinity_validation_witness :
    set_affinity 4 (fun _ _ => 0) 0 1 = (invalid_argument_code, []) ∧
    set_affinity 4 (fun _ _ => 3) 9 2 =
      (⟨3, ErrorCategory.generic⟩, [⟨9, [2]⟩]) :=
  ⟨(C8_set_affinity_validation 4 (fun _ _ => 0) 0 1).1 (by decide),
   (C8_set_affinity_validation 4 (fun _ _ => 3) 9 2).2.1 (by decide)⟩

/-- Claim C9: a pool constructed with size N ≥ 1 succeeds, starts
exactly N workers, and `size()` returns N in every reachable state: no
operation of the transition system (submission, worker steps, `clear`,
destruction) changes the worker count, and neither do the sequential
`submit`/`clear` member functions. -/
theorem C9_size_invariant (n : Nat) (acts : List Act) (s : Pool)
    (hpos : 0 < n) (h : run acts (initPool n) = some s) :
    (mkPool n).2 = none ∧
    pool_size (mkPool n).1 = n ∧
    (initPool n).workers.length = n ∧
    s.workers.length = n ∧
    (∀ (p : PoolData) (f : Except Exn Unit),
      pool_size (submit p (some f)).1 = pool_size p ∧
      pool_size (clear p) = pool_size p) := by
  have hne : ¬n = 0 := Nat.pos_iff_ne_zero.mp hpos
  refine ⟨?_, ?_, ?_, ?_, fun p f => ⟨rfl, rfl⟩⟩
  · unfold mkPool; rw [if_neg hne]
  · unfold mkPool pool_size; rw [if_neg hne]
  · simp [initPool]
  · rw [run_workers_length acts (initPool n) s h]
    simp [initPool]

/-- The state of a two-worker pool after one submission. -/
def c9State : Pool :=
  { queue := [3], is_started := true, workers := [.idle, .idle],
    dstate := .notCalled, started := [], submitted := [3],
    assertFailed := false }

theorem C9_size_invariant_witness :
    (mkPool 2).2 = none ∧
    pool_size (mkPool 2).1 = 2 ∧
    (initPool 2).workers.length = 2 ∧
    c9State.workers.length = 2 ∧
    (∀ (p : PoolData) (f : Except Exn Unit),
      pool_size (submit p (some f)).1 = pool_size p ∧
      pool_size (clear p) = pool_size p) :=
  C9_size_invariant 2 [Act.submit 3] c9State (by decide) (by decide)

/-- Claim C10: the default constructor delegates to the sized
constructor with the host-reported hardware concurrency, so on a host
reporting 0 it throws the same "empty pool is not allowed" exception,
starts no worker and never marks the pool running. -/
theorem C10_default_size_is_hardware_concurrency :
    (∀ (hc : Nat), mkPoolDefault hc = mkPool hc) ∧
    (mkPoolDefault 0).2
      = some (Exn.std "cannot create thread pool: empty pool is not allowed") ∧
    (mkPoolDefault 0).1.workerCount = 0 ∧
    (mkPoolDefault 0).1.is_started = false :=
  ⟨fun _ => rfl, rfl, rfl, rfl⟩

end Dmitigr.Concur
